import Mathlib

/-!
Shallow embedding of the `pita` piece-table editor core
(crates/piece-table/src/lib.rs, crates/piece-table/src/iter.rs,
crates/pita-term/src/hl.rs, crates/pita-term/src/cursor.rs,
crates/pita-term/src/screen.rs, crates/pita-term/src/main.rs).

Rust `Vec<T>` and slices become `List T`; `usize` becomes `Nat`.
Operations that can panic in the source (arithmetic underflow on `usize`,
out-of-bounds slicing or indexing) are modelled with `Option`, `none`
standing for the panic.  In-range `Vec` index updates are modelled with
total helpers (`modifyAt`, `insertAt`) that coincide with the source on
every in-bounds call.
-/

namespace Pita

/-- Model of the checked `usize` subtraction `a - b` (panics on underflow). -/
def sub? (a b : Nat) : Option Nat :=
  if b ≤ a then some (a - b) else none

/-- Model of the Rust slice expression `l[lo..hi]` (panics unless
`lo <= hi <= l.len()`). -/
def slice? {α : Type} (l : List α) (lo hi : Nat) : Option (List α) :=
  if lo ≤ hi ∧ hi ≤ l.length then some ((l.drop lo).take (hi - lo)) else none

/-- `Vec` element update `l[k] = f(l[k])`; total, identity when `k` is out of
bounds (the source only updates in-bounds indices). -/
def modifyAt {α : Type} (l : List α) (k : Nat) (f : α → α) : List α :=
  match l[k]? with
  | some x => l.set k (f x)
  | none => l

/-- `Vec::insert(k, x)`; total, appends when `k` exceeds the length (the
source only inserts at in-bounds positions). -/
def insertAt {α : Type} (l : List α) (k : Nat) (x : α) : List α :=
  l.take k ++ x :: l.drop k

/-- Either the original immutable buffer or the add buffer (`WithBuffer`). -/
inductive WithBuffer : Type
  | Original : WithBuffer
  | Add : WithBuffer
deriving DecidableEq, Repr

/-- A contiguous run of one of the two underlying buffers (`Piece`). -/
structure Piece : Type where
  with_buffer : WithBuffer
  start : Nat
  length : Nat
deriving DecidableEq, Repr

/-- `Location` of an absolute index inside the piece list. -/
inductive Location : Type
  | Head : Nat → Location
  | Middle : Nat → Nat → Location
  | Tail : Nat → Nat → Location
  | EOF : Location
deriving DecidableEq, Repr

/-- The one-slot reuse hint (`ReusableEdit`). -/
inductive ReusableEdit : Type
  | Insert : Nat → Bool → ReusableEdit
  | Remove : Location → ReusableEdit
  | None : ReusableEdit
deriving DecidableEq, Repr

/-- The piece-table buffer (`PtBuffer`). -/
structure PtBuffer (T : Type) : Type where
  file_buffer : List T
  add_buffer : List T
  pieces : List Piece
  length : Nat
  last_edit_idx : Nat
  reusable_edit : ReusableEdit

namespace PtBuffer

variable {T : Type}

/-- Read `pieces[k]`; the default is never reached on the in-bounds reads
performed by the source. -/
def pieceAt (l : List Piece) (k : Nat) : Piece :=
  (l[k]?).getD ⟨WithBuffer.Original, 0, 0⟩

/-- `PtBuffer::new`. -/
def new (src : List T) : PtBuffer T :=
  { file_buffer := src
    add_buffer := []
    pieces := [⟨WithBuffer.Original, 0, src.length⟩]
    length := src.length
    last_edit_idx := 0
    reusable_edit := ReusableEdit.None }

/-- Accumulator loop of `PtBuffer::index_to_piece_loc`. -/
def locAux (idx : Nat) : List Piece → Nat → Nat → Location
  | [], _, _ => Location.EOF
  | p :: rest, acc, piece_idx =>
    if idx ≥ acc ∧ idx < acc + p.length then
      let delta := idx - acc
      if delta = 0 then Location.Head piece_idx
      else if delta = p.length - 1 then Location.Tail piece_idx delta
      else Location.Middle piece_idx delta
    else locAux idx rest (acc + p.length) (piece_idx + 1)

/-- `PtBuffer::index_to_piece_loc`. -/
def index_to_piece_loc (b : PtBuffer T) (idx : Nat) : Location :=
  locAux idx b.pieces 0 0

/-- `PtBuffer::get_buffer`. -/
def get_buffer (b : PtBuffer T) (piece : Piece) : List T :=
  match piece.with_buffer with
  | WithBuffer.Add => b.add_buffer
  | WithBuffer.Original => b.file_buffer

/-- `PtBuffer::push`. -/
def push (b : PtBuffer T) (value : T) : PtBuffer T :=
  let reuse : Bool :=
    match b.pieces.getLast? with
    | some last =>
      decide (last.with_buffer = WithBuffer.Add) &&
        decide (last.start + last.length = b.add_buffer.length)
    | none => false
  let b1 := { b with add_buffer := b.add_buffer ++ [value] }
  let b2 :=
    if reuse then
      { b1 with
        pieces := modifyAt b1.pieces (b1.pieces.length - 1)
          (fun p => { p with length := p.length + 1 })
        reusable_edit := ReusableEdit.Insert (b1.pieces.length - 1) false }
    else
      let pieces2 := b1.pieces ++ [⟨WithBuffer.Add, b1.add_buffer.length - 1, 1⟩]
      { b1 with
        pieces := pieces2
        reusable_edit := ReusableEdit.Insert (pieces2.length - 1) true }
  { b2 with last_edit_idx := b.length, length := b.length + 1 }

/-- `PtBuffer::raw_insert`. -/
def raw_insert (b : PtBuffer T) (i : Nat) (item : T) : PtBuffer T :=
  let piece_start := b.add_buffer.length
  let b1 := { b with add_buffer := b.add_buffer ++ [item] }
  match index_to_piece_loc b1 i with
  | Location.Head piece_idx =>
    { b1 with
      pieces := insertAt b1.pieces piece_idx ⟨WithBuffer.Add, piece_start, 1⟩
      reusable_edit := ReusableEdit.Insert piece_idx true }
  | Location.Middle piece_idx delta | Location.Tail piece_idx delta =>
    let origin := pieceAt b1.pieces piece_idx
    let pieces1 := modifyAt b1.pieces piece_idx (fun p => { p with length := delta })
    let ins : Piece := ⟨WithBuffer.Add, piece_start, 1⟩
    let split : Piece := ⟨origin.with_buffer, origin.start + delta, origin.length - delta⟩
    { b1 with
      pieces := insertAt (insertAt pieces1 (piece_idx + 1) ins) (piece_idx + 2) split
      reusable_edit := ReusableEdit.Insert (piece_idx + 1) false }
  | Location.EOF =>
    let piece_idx := b1.pieces.length
    { b1 with
      pieces := b1.pieces ++ [⟨WithBuffer.Add, piece_start, 1⟩]
      reusable_edit := ReusableEdit.Insert piece_idx true }

/-- `PtBuffer::insert` (`at` is a reserved word in Lean, hence `i`).
The source also has `debug_assert!(at <= self.length)`; the function body
is unconditional. -/
def insert (b : PtBuffer T) (i : Nat) (item : T) : PtBuffer T :=
  let b1 :=
    match b.reusable_edit with
    | ReusableEdit.Insert piece_idx _ =>
      if i = b.last_edit_idx + 1 then
        { b with
          add_buffer := b.add_buffer ++ [item]
          pieces := modifyAt b.pieces piece_idx
            (fun p => { p with length := p.length + 1 }) }
      else raw_insert b i item
    | _ => raw_insert b i item
  { b1 with last_edit_idx := i, length := b1.length + 1 }

/-- `PtBuffer::raw_remove`; returns the updated buffer together with the
`Option<usize>` result (index of a piece that became empty). -/
def raw_remove (b : PtBuffer T) (location : Location) : PtBuffer T × Option Nat :=
  match location with
  | Location.Head piece_idx =>
    let b1 := { b with
      pieces := modifyAt b.pieces piece_idx
        (fun p => { p with start := p.start + 1, length := p.length - 1 }) }
    if (pieceAt b1.pieces piece_idx).length = 0 then (b1, some piece_idx)
    else (b1, none)
  | Location.Tail piece_idx delta =>
    let b1 := { b with
      pieces := modifyAt b.pieces piece_idx
        (fun p => { p with length := p.length - 1 }) }
    let loc :=
      if delta - 1 = 0 then Location.Head piece_idx
      else Location.Tail piece_idx (delta - 1)
    ({ b1 with reusable_edit := ReusableEdit.Remove loc }, none)
  | Location.Middle piece_idx delta =>
    let orig := pieceAt b.pieces piece_idx
    let b1 := { b with
      pieces := modifyAt b.pieces piece_idx (fun p => { p with length := delta }) }
    let start := delta + 1
    let b2 :=
      if orig.length - start > 0 then
        { b1 with
          pieces := insertAt b1.pieces (piece_idx + 1)
            ⟨orig.with_buffer, orig.start + start, orig.length - start⟩ }
      else b1
    let b3 :=
      if piece_idx > 0 then
        let loc :=
          if delta - 1 = 0 then Location.Head piece_idx
          else Location.Middle piece_idx (delta - 1)
        { b2 with reusable_edit := ReusableEdit.Remove loc }
      else b2
    (b3, none)
  | Location.EOF => (b, none)

/-- `PtBuffer::remove`.  The source also has
`debug_assert!(at < self.length)`; the function body is unconditional. -/
def remove (b : PtBuffer T) (i : Nat) : PtBuffer T :=
  let step : PtBuffer T × Option Nat :=
    match b.reusable_edit with
    | ReusableEdit.Insert piece_idx head =>
      if i + 1 = b.last_edit_idx ∧ head = true then
        let b1 := { b with
          pieces := modifyAt b.pieces piece_idx
            (fun p => { p with length := p.length - 1 }) }
        (b1,
          if (pieceAt b1.pieces piece_idx).length = 0 then some piece_idx else none)
      else raw_remove b (index_to_piece_loc b i)
    | ReusableEdit.Remove loc =>
      if i = b.last_edit_idx then raw_remove b loc
      else raw_remove b (index_to_piece_loc b i)
    | ReusableEdit.None => raw_remove b (index_to_piece_loc b i)
  let b1 := step.1
  let b2 :=
    match step.2 with
    | some piece_idx =>
      let b1e := { b1 with pieces := b1.pieces.eraseIdx piece_idx }
      if piece_idx > 0 then
        let idx := piece_idx - 1
        let len := (pieceAt b1e.pieces idx).length
        let loc :=
          if len = 1 then Location.Head idx
          else Location.Tail idx (len - 1)
        { b1e with reusable_edit := ReusableEdit.Remove loc }
      else b1e
    | none => b1
  { b2 with last_edit_idx := i }

/-- `PtBuffer::len`. -/
def len (b : PtBuffer T) : Nat :=
  b.length

/-- Contents of one piece: the Rust slice `buf[start..start + length]`
used by the iterators (always in bounds in reachable states). -/
def pieceContent (b : PtBuffer T) (p : Piece) : List T :=
  ((get_buffer b p).drop p.start).take p.length

/-- Everything a forward `Iter` yields once positioned at piece `k` with
inner offset `norm` (`Iter::next` drains the current slice, then every later
piece in full). -/
def collectFrom (b : PtBuffer T) (k norm : Nat) : List T :=
  match b.pieces.drop k with
  | [] => []
  | p :: rest => ((pieceContent b p).drop norm) ++ (rest.map (pieceContent b)).flatten

/-- Collected output of `PtBuffer::make_iter(idx)` followed by draining the
iterator. -/
def iterFrom (b : PtBuffer T) (idx : Nat) : List T :=
  match index_to_piece_loc b idx with
  | Location.Head piece_idx => collectFrom b piece_idx 0
  | Location.Middle piece_idx norm_idx | Location.Tail piece_idx norm_idx =>
    collectFrom b piece_idx norm_idx
  | Location.EOF => []

/-- Collected output of `PtBuffer::iter`. -/
def iterList (b : PtBuffer T) : List T :=
  iterFrom b 0

/-- Collected output of `PtBuffer::range(f..t)` (a `Range` yields at most
`t - f` elements of the underlying forward iterator). -/
def rangeList (b : PtBuffer T) (f t : Nat) : List T :=
  (iterFrom b f).take (t - f)

/-- Everything a `RevIter` positioned at piece `piece_idx` with remaining
initial slice `initSlice` yields: the initial slice reversed, then pieces
`piece_idx - 1` down to `0`, each reversed. -/
def revCollect (b : PtBuffer T) (piece_idx : Nat) (initSlice : List T) : List T :=
  initSlice.reverse ++
    (((b.pieces.take piece_idx).reverse).map (fun p => (pieceContent b p).reverse)).flatten

/-- Collected output of `PtBuffer::make_rev_iter(rstart..rend)` followed by
draining the iterator; `none` models the panics (slice out of bounds,
`usize` underflow). -/
def make_rev_iter? (b : PtBuffer T) (rstart rend : Nat) : Option (List T) :=
  match index_to_piece_loc b rend with
  | Location.Head piece_idx =>
    let piece := pieceAt b.pieces piece_idx
    (slice? (get_buffer b piece) piece.length (piece.start + piece.length)).map
      (revCollect b piece_idx)
  | Location.Middle piece_idx norm_idx | Location.Tail piece_idx norm_idx =>
    let piece := pieceAt b.pieces piece_idx
    (slice? (get_buffer b piece) (piece.length - norm_idx)
      (piece.start + piece.length)).map (revCollect b piece_idx)
  | Location.EOF =>
    match sub? b.pieces.length 1, sub? rend rstart with
    | some idx, some w =>
      let piece := pieceAt b.pieces idx
      (slice? (get_buffer b piece) 0 w).map (revCollect b idx)
    | _, _ => none

/-- Collected output of `PtBuffer::rev_iter` (`make_rev_iter(0..length - 1)`;
the subtraction underflows — panics — when `length = 0`). -/
def rev_iter? (b : PtBuffer T) : Option (List T) :=
  match sub? b.length 1 with
  | some e => make_rev_iter? b 0 e
  | none => none

/-- Collected output of `PtBuffer::rev_range(f..t)` (a `RevRange` yields at
most `t - f` elements of the underlying reverse iterator). -/
def rev_range? (b : PtBuffer T) (f t : Nat) : Option (List T) :=
  (make_rev_iter? b f t).map (fun l => l.take (t - f))

end PtBuffer

/-- Loop body of `PtBuffer::<u8>::line_column_to_idx` over the forward
iteration, carrying `idx`, `c_count` and `l_count`; `none` models the final
`panic!`.  The element type is kept generic with an explicit newline value
`nlv` (the source is the `u8` specialisation with `b'\n'`). -/
def lcCore {T : Type} [DecidableEq T] (nlv : T) (column line : Nat) :
    List T → Nat → Nat → Nat → Option Nat
  | [], _, _, _ => none
  | c :: rest, idx, c_count, l_count =>
    if column = c_count ∧ line = l_count then some idx
    else
      let c_count1 := if l_count = line then c_count + 1 else c_count
      let l_count1 := if c = nlv then l_count + 1 else l_count
      lcCore nlv column line rest (idx + 1) c_count1 l_count1

/-- `PtBuffer::line_column_to_idx` (panic modelled as `none`). -/
def line_column_to_idx? {T : Type} [DecidableEq T] (nlv : T) (b : PtBuffer T)
    (column line : Nat) : Option Nat :=
  lcCore nlv column line (PtBuffer.iterList b) 0 0 0

/-- Number of newline elements in a list (the value that the `l_count`
counter of `line_column_to_idx` holds once the iteration is exhausted). -/
def countNL {T : Type} [DecidableEq T] (nlv : T) : List T → Nat
  | [] => 0
  | c :: rest => (if c = nlv then 1 else 0) + countNL nlv rest

/-- Number of elements after the last newline (the whole list when it has
no newline): the column of the position one past the last element. -/
def tailLen {T : Type} [DecidableEq T] (nlv : T) : List T → Nat
  | [] => 0
  | c :: rest =>
    if countNL nlv rest = 0 then
      if c = nlv then rest.length else rest.length + 1
    else tailLen nlv rest

/-- `HlQueue` (crates/pita-term/src/hl.rs): a grow-only list of
`(start, end, tag)` ranges. -/
structure HlQueue : Type where
  inner : List (Nat × Nat × Nat)

namespace HlQueue

/-- `HlQueue::get`. -/
def get (q : HlQueue) (index : Nat) : Option Nat :=
  let idx := index + 1
  (q.inner.find? (fun r => decide (idx ≥ r.1) && decide (idx < r.2.1))).map
    (fun h => h.2.2)

end HlQueue

/-- The cursor/offset state of `Screen` (crates/pita-term/src/screen.rs).
The output handle and the back-buffer cell grid play no part in the claims
about cursor arithmetic and are not modelled. -/
structure Screen : Type where
  width : Nat
  height : Nat
  offset_x : Nat
  offset_y : Nat
  cursor : Nat × Nat
  line_offset : Nat

namespace Screen

/-- `Screen::set_cursor`; the stored pair is `u16`, hence the mod 2^16 of
the `as u16` casts. -/
def set_cursor (s : Screen) (x y : Nat) : Screen :=
  { s with cursor :=
      ((min (x + s.offset_x) ((s.width + s.offset_x) - 1)) % 65536,
       (min (y + s.offset_y) ((s.height + s.offset_y) - 1)) % 65536) }

/-- `Screen::cursor` (the `usize` subtractions panic on underflow). -/
def cursor? (s : Screen) : Option (Nat × Nat) :=
  match sub? s.cursor.1 s.offset_x, sub? s.cursor.2 s.offset_y with
  | some x, some y => some (x, y)
  | _, _ => none

/-- `Screen::dec_offset` (`saturating_sub`). -/
def dec_offset (s : Screen) : Screen :=
  { s with line_offset := s.line_offset - 1 }

/-- `Screen::inc_offset`. -/
def inc_offset (s : Screen) : Screen :=
  { s with line_offset := s.line_offset + 1 }

end Screen

/-- The parts of `Editor` (crates/pita-term/src/main.rs) acted on by the
cursor and deletion commands.  The document holds abstract elements
(`Nat` codes standing for the grapheme strings of the source, with `10`
the newline). -/
structure Editor : Type where
  doc : PtBuffer Nat
  editor_screen : Screen
  line_endings : List Nat

namespace Editor

/-- `Editor::cursor_left` (crates/pita-term/src/cursor.rs); returns the
updated screen and the `bool` result.  `none` models the panics of
`Screen::cursor` and of the `line_endings[y]` indexing. -/
def cursor_left? (e : Editor) : Option (Screen × Bool) :=
  match e.editor_screen.cursor? with
  | none => none
  | some (x, y) =>
    if x = 0 then
      let xOpt :=
        if e.editor_screen.line_offset > 0 then
          (e.line_endings[y]?).map (fun v => v - 1)
        else some x
      match xOpt with
      | none => none
      | some x1 =>
        let y1 := y - 1
        let scr := if y1 = 0 then e.editor_screen.dec_offset else e.editor_screen
        some (scr.set_cursor x1 y1, true)
    else
      some (e.editor_screen.set_cursor (x - 1) y, false)

/-- `Editor::get_cursor_absolute_position`. -/
def get_cursor_absolute_position? (e : Editor) : Option Nat :=
  match e.editor_screen.cursor? with
  | none => none
  | some (x, y) =>
    line_column_to_idx? 10 e.doc x (y + e.editor_screen.line_offset)

/-- The `Command::DeleteBackWard` arm of `handle_command`
(crates/pita-term/src/main.rs): `cursor_left`, then `remove` at the new
absolute cursor position. -/
def delete_backward? (e : Editor) : Option Editor :=
  match e.cursor_left? with
  | none => none
  | some (scr, _) =>
    let e1 := { e with editor_screen := scr }
    match e1.get_cursor_absolute_position? with
    | none => none
    | some pos => some { e1 with doc := e1.doc.remove pos }

end Editor

/-! Concrete fixtures used by individual claims. -/

/-- The scenario-6 buffer: `new("Helo")` followed by
`insert(0, b); insert(0, a); insert(0, c); insert(4, space)`. -/
def scenarioSix : PtBuffer Char :=
  ((((PtBuffer.new ['H', 'e', 'l', 'o']).insert 0 'b').insert 0 'a').insert 0 'c').insert 4 ' '

/-- An editor over the two-element document `[97, 98]` (the bytes of `ab`)
with the cursor at the top-left cell and no scroll offset. -/
def editorAtOrigin : Editor :=
  { doc := PtBuffer.new [97, 98]
    editor_screen :=
      { width := 10, height := 10, offset_x := 0, offset_y := 0
        cursor := (0, 0), line_offset := 0 }
    line_endings := [2] }

open PtBuffer

/-- C1: the claim that after every in-bounds `insert`/`remove`/`push` the
forward traversal matches a reference vector fails: from the empty buffer,
`insert(0, 1); insert(1, 2); remove(0)` leaves the traversal `[1]`, while
the reference vector is `[2]` — the `Insert` reuse fast path of `remove`
decrements the hinted piece and thereby deletes the element at index 1
instead of index 0. -/
theorem c1_remove_reuse_deletes_wrong_element :
    iterList ((((PtBuffer.new ([] : List Nat)).insert 0 1).insert 1 2).remove 0) = [1] ∧
    ((([] : List Nat).insertIdx 0 1).insertIdx 1 2).eraseIdx 0 = [2] := by
  decide

/-- C2: the claim that the stored `length` field tracks the sum of the
piece lengths fails on `remove`: `PtBuffer::remove` never decrements
`self.length`, so after `new([5]).remove(0)` the buffer reports `len() = 1`
while its pieces sum to `0`. -/
theorem c2_remove_leaves_length_stale :
    ((PtBuffer.new ([5] : List Nat)).remove 0).len = 1 ∧
    ((((PtBuffer.new ([5] : List Nat)).remove 0).pieces.map Piece.length).sum = 0) := by
  decide

/-- C3 counterexample: on the fresh buffer over `[97, 98, 99, 100]`
(`"abcd"`), `rev_range(0, 3)` yields `[100, 99, 98]` (`"dcb"`), which is
not `range(0, 3)` reversed (`[99, 98, 97]`, `"cba"`). -/
theorem c3_rev_range_is_not_reversed_range :
    rev_range? (PtBuffer.new ([97, 98, 99, 100] : List Nat)) 0 3 ≠
      some ((rangeList (PtBuffer.new ([97, 98, 99, 100] : List Nat)) 0 3).reverse) := by
  decide

/-- C3 (amended): on a fresh buffer built from `S`, for `lo ≤ hi ≤ |S|`,
`rev_range(lo, hi)` yields `hi - lo` elements, but not those of
`range(lo, hi)` reversed: when `hi = |S|` it yields the elements at indices
`hi - lo - 1` down to `0` (i.e. `range(0, hi - lo)` reversed), and when
`hi < |S|` it yields the elements at indices `|S| - 1` down to
`|S| - (hi - lo)`. -/
theorem c3_rev_range_fresh_buffer (T : Type) (S : List T) (lo hi : Nat)
    (h1 : lo ≤ hi) (h2 : hi ≤ S.length) :
    rev_range? (PtBuffer.new S) lo hi =
      some (if hi = S.length then (S.take (hi - lo)).reverse
            else (S.drop (S.length - (hi - lo))).reverse) := by
  have hps : (PtBuffer.new S).pieces = [⟨WithBuffer.Original, 0, S.length⟩] := rfl
  have hpa : pieceAt (PtBuffer.new S).pieces 0 = ⟨WithBuffer.Original, 0, S.length⟩ := rfl
  have hgb : get_buffer (PtBuffer.new S) ⟨WithBuffer.Original, 0, S.length⟩ = S := rfl
  have hrc : ∀ x : List T, revCollect (PtBuffer.new S) 0 x = x.reverse := by
    intro x
    simp [revCollect]
  have hmk : make_rev_iter? (PtBuffer.new S) lo hi =
      some (if hi = S.length then (S.take (hi - lo)).reverse
            else (S.drop (S.length - hi)).reverse) := by
    rcases Nat.lt_or_ge hi S.length with hlt | hge
    · have hne : hi ≠ S.length := Nat.ne_of_lt hlt
      have hdrop : (S.drop (S.length - hi)).take hi = S.drop (S.length - hi) := by
        apply List.take_of_length_le
        simp [List.length_drop]
        omega
      have htake : S.length - (S.length - hi) = hi := by omega
      by_cases h0 : hi = 0
      · have hloc : index_to_piece_loc (PtBuffer.new S) hi = Location.Head 0 := by
          simp only [index_to_piece_loc, hps, locAux]
          rw [if_pos (by constructor <;> omega)]
          simp [h0]
        simp only [make_rev_iter?, hloc, hpa, hgb, slice?]
        rw [if_pos (by constructor <;> omega)]
        simp only [Nat.zero_add, Nat.sub_self, List.take_zero, Option.map_some', hrc,
          List.reverse_nil]
        rw [if_neg hne, h0]
        simp [List.drop_length]
      · have hloc : index_to_piece_loc (PtBuffer.new S) hi =
            if hi = S.length - 1 then Location.Tail 0 hi else Location.Middle 0 hi := by
          simp only [index_to_piece_loc, hps, locAux]
          rw [if_pos (by constructor <;> omega)]
          simp [h0]
        by_cases htl : hi = S.length - 1
        · rw [if_pos htl] at hloc
          simp only [make_rev_iter?, hloc, hpa, hgb, slice?]
          rw [if_pos (by constructor <;> omega)]
          simp only [Nat.zero_add, Option.map_some', hrc]
          rw [if_neg hne, htake, hdrop]
        · rw [if_neg htl] at hloc
          simp only [make_rev_iter?, hloc, hpa, hgb, slice?]
          rw [if_pos (by constructor <;> omega)]
          simp only [Nat.zero_add, Option.map_some', hrc]
          rw [if_neg hne, htake, hdrop]
    · have heq : hi = S.length := le_antisymm h2 hge
      have hloc : index_to_piece_loc (PtBuffer.new S) hi = Location.EOF := by
        simp only [index_to_piece_loc, hps, locAux]
        rw [if_neg (by omega)]
      have hpl : (PtBuffer.new S).pieces.length = 1 := by
        rw [hps]
        rfl
      simp only [make_rev_iter?, hloc, hpl, sub?]
      rw [if_pos (by omega), if_pos h1]
      simp only [Nat.sub_self, hpa, hgb, slice?]
      rw [if_pos (by constructor <;> omega)]
      simp only [List.drop_zero, Nat.sub_zero, Option.map_some', hrc]
      rw [if_pos heq, heq]
  rw [rev_range?, hmk]
  simp only [Option.map_some']
  by_cases hfin : hi = S.length
  · rw [if_pos hfin, if_pos hfin]
    apply congrArg
    apply List.take_of_length_le
    simp [List.length_reverse, List.length_take]
  · rw [if_neg hfin, if_neg hfin]
    have hlen : (S.drop (S.length - hi)).length = hi := by
      simp [List.length_drop]
      omega
    rw [List.take_reverse, hlen, List.drop_drop]
    have key : ∀ a b : Nat, a = b →
        some (S.drop a).reverse = some (S.drop b).reverse := by
      intro a b h
      rw [h]
    apply key
    omega

/-- C3 witness: the amended statement evaluated on the fresh buffer over
`[97, 98, 99, 100]` with `lo = 0`, `hi = 3`. -/
theorem c3_rev_range_fresh_buffer_witness :
    rev_range? (PtBuffer.new ([97, 98, 99, 100] : List Nat)) 0 3 =
      some (if 3 = ([97, 98, 99, 100] : List Nat).length
            then (([97, 98, 99, 100] : List Nat).take (3 - 0)).reverse
            else (([97, 98, 99, 100] : List Nat).drop
              (([97, 98, 99, 100] : List Nat).length - (3 - 0))).reverse) :=
  c3_rev_range_fresh_buffer Nat [97, 98, 99, 100] 0 3 (by decide) (by decide)

/-- C4: on a fresh buffer built from `"abcd"`, `reverse_range(0, 3)` yields
`"dcb"`, `reverse_range(0, 2)` yields `"dc"` and `reverse_range(2, 4)`
yields `"ba"`. -/
theorem c4_rev_range_abcd :
    rev_range? (PtBuffer.new ['a', 'b', 'c', 'd']) 0 3 = some ['d', 'c', 'b'] ∧
    rev_range? (PtBuffer.new ['a', 'b', 'c', 'd']) 0 2 = some ['d', 'c'] ∧
    rev_range? (PtBuffer.new ['a', 'b', 'c', 'd']) 2 4 = some ['b', 'a'] := by
  decide

/-- C5 counterexample: the non-empty fresh buffer over `[97, 98, 99, 100]`
(`"abcd"`) has `rev_iter()` yield `[100, 99, 98]` (`"dcb"`), not the
reverse `[100, 99, 98, 97]` of its forward iteration. -/
theorem c5_rev_iter_not_reverse_of_iter :
    rev_iter? (PtBuffer.new ([97, 98, 99, 100] : List Nat)) ≠
      some ((iterList (PtBuffer.new ([97, 98, 99, 100] : List Nat))).reverse) := by
  decide

/-- C5 (amended): `rev_iter()` does not in general yield the reverse of
`iter()`; for the scenario-6 buffer it does yield `"ole Hbac"`, the reverse
of its forward iteration `"cabH elo"`. -/
theorem c5_scenario_six_rev_iter :
    rev_iter? scenarioSix = some ['o', 'l', 'e', ' ', 'H', 'b', 'a', 'c'] ∧
    iterList scenarioSix = ['c', 'a', 'b', 'H', ' ', 'e', 'l', 'o'] := by
  decide

/-- C6: the claim that `DeleteBackWard` with the cursor at absolute index 0
leaves the document unchanged fails: `cursor_left` keeps the cursor at
`(0, 0)`, after which the command unconditionally removes the element at
absolute index 0, turning the document `[97, 98]` into `[98]`. -/
theorem c6_delete_backward_at_origin_removes_first :
    (editorAtOrigin.delete_backward?).map (fun e => iterList e.doc) = some [98] ∧
    iterList editorAtOrigin.doc = [97, 98] ∧
    (editorAtOrigin.delete_backward?).map (fun e => e.editor_screen.cursor) =
      some (0, 0) := by
  decide

/-- C7: round-trip — the forward iteration of `PtBuffer::new(S)` collects
to exactly `S`. -/
theorem c7_new_iter_roundtrip (T : Type) (src : List T) :
    iterList (PtBuffer.new src) = src := by
  cases src with
  | nil =>
    simp [iterList, iterFrom, index_to_piece_loc, PtBuffer.new, locAux]
  | cons x xs =>
    simp [iterList, iterFrom, index_to_piece_loc, PtBuffer.new, locAux,
      collectFrom, pieceContent, get_buffer]

/-- C8: `HlQueue::get(i)` returns the tag of the first stored range
(in insertion order) whose half-open interval `[start, end)` contains
`i + 1`, and `none` when no stored range does. -/
theorem c8_hl_get_first_match (q : HlQueue) (i : Nat) :
    (∀ t, q.get i = some t ↔
      ∃ l1 r l2, q.inner = l1 ++ r :: l2 ∧ (r.1 ≤ i + 1 ∧ i + 1 < r.2.1) ∧
        r.2.2 = t ∧ ∀ s ∈ l1, ¬(s.1 ≤ i + 1 ∧ i + 1 < s.2.1)) ∧
    (q.get i = none ↔ ∀ s ∈ q.inner, ¬(s.1 ≤ i + 1 ∧ i + 1 < s.2.1)) := by
  constructor
  · intro t
    simp only [HlQueue.get, Option.map_eq_some', List.find?_eq_some, Bool.and_eq_true,
      decide_eq_true_eq, ge_iff_le, Bool.not_eq_true', Bool.and_eq_false_iff,
      decide_eq_false_iff_not, not_lt, not_le]
    constructor
    · rintro ⟨r, ⟨⟨hr1, hr2⟩, l1, l2, heq, hprev⟩, ht⟩
      refine ⟨l1, r, l2, heq, ⟨hr1, hr2⟩, ht, ?_⟩
      intro s hs hcon
      rcases hprev s hs with h | h
      · omega
      · omega
    · rintro ⟨l1, r, l2, heq, ⟨hr1, hr2⟩, ht, hprev⟩
      refine ⟨r, ⟨⟨hr1, hr2⟩, l1, l2, heq, ?_⟩, ht⟩
      intro s hs
      have := hprev s hs
      by_cases hc : s.1 ≤ i + 1
      · right
        omega
      · left
        omega
  · simp only [HlQueue.get, Option.map_eq_none', List.find?_eq_none, Bool.and_eq_true,
      decide_eq_true_eq, ge_iff_le, not_and, not_lt]

/-- Any successful hit of the `line_column_to_idx` loop is an index of the
iterated sequence. -/
theorem lcCore_some_lt {T : Type} [DecidableEq T] (nlv : T) (col line : Nat) :
    ∀ (l : List T) (idx cc lc i : Nat),
      lcCore nlv col line l idx cc lc = some i → i < idx + l.length := by
  intro l
  induction l with
  | nil =>
    intro idx cc lc i h
    simp [lcCore] at h
  | cons c rest ih =>
    intro idx cc lc i h
    simp only [lcCore] at h
    split at h
    · have : idx = i := Option.some.inj h
      simp [List.length_cons]
      omega
    · have := ih (idx + 1) _ _ i h
      simp [List.length_cons]
      omega

/-- On a newline-free list the tail-line length is the whole length. -/
theorem countNL_zero_tailLen {T : Type} [DecidableEq T] (nlv : T) :
    ∀ l : List T, countNL nlv l = 0 → tailLen nlv l = l.length := by
  intro l
  induction l with
  | nil =>
    intro _
    rfl
  | cons c rest ih =>
    intro h
    simp only [countNL] at h
    by_cases hc : c = nlv
    · simp [hc] at h
    · have h2 : countNL nlv rest = 0 := by
        simp [hc] at h
        exact h
      simp [tailLen, hc, h2, List.length_cons]

/-- The `line_column_to_idx` loop never hits the (column, line) pair that
designates the position one past the last element, whatever the starting
counters. -/
theorem lcCore_end_none {T : Type} [DecidableEq T] (nlv : T) :
    ∀ (l : List T) (idx cc lc : Nat),
      lcCore nlv (cc + tailLen nlv l) (lc + countNL nlv l) l idx cc lc = none := by
  intro l
  induction l with
  | nil =>
    intro idx cc lc
    rfl
  | cons c rest ih =>
    intro idx cc lc
    have hcond : ¬(cc + tailLen nlv (c :: rest) = cc ∧
        lc + countNL nlv (c :: rest) = lc) := by
      rintro ⟨hA, hB⟩
      have hz : countNL nlv (c :: rest) = 0 := by omega
      have hc : c ≠ nlv := by
        intro hcc
        simp [countNL, hcc] at hz
      have h2 : countNL nlv rest = 0 := by
        simp [countNL, hc] at hz
        exact hz
      have hT : tailLen nlv (c :: rest) = rest.length + 1 := by
        simp [tailLen, hc, h2]
      omega
    simp only [lcCore]
    rw [if_neg hcond]
    by_cases hc : c = nlv
    · have hcnt : countNL nlv (c :: rest) = 1 + countNL nlv rest := by
        simp [countNL, hc]
      rw [if_neg (by omega : ¬lc = lc + countNL nlv (c :: rest)), if_pos hc]
      by_cases h2 : countNL nlv rest = 0
      · have hT : tailLen nlv (c :: rest) = rest.length := by
          simp [tailLen, hc, h2]
        have hTr : tailLen nlv rest = rest.length := countNL_zero_tailLen nlv rest h2
        have e1 : cc + tailLen nlv (c :: rest) = cc + tailLen nlv rest := by omega
        have e2 : lc + countNL nlv (c :: rest) = (lc + 1) + countNL nlv rest := by omega
        rw [e1, e2]
        exact ih (idx + 1) cc (lc + 1)
      · have hT : tailLen nlv (c :: rest) = tailLen nlv rest := by
          simp [tailLen, h2]
        have e1 : cc + tailLen nlv (c :: rest) = cc + tailLen nlv rest := by omega
        have e2 : lc + countNL nlv (c :: rest) = (lc + 1) + countNL nlv rest := by omega
        rw [e1, e2]
        exact ih (idx + 1) cc (lc + 1)
    · have hcnt : countNL nlv (c :: rest) = countNL nlv rest := by
        simp [countNL, hc]
      rw [if_neg hc]
      by_cases h2 : countNL nlv rest = 0
      · have hT : tailLen nlv (c :: rest) = rest.length + 1 := by
          simp [tailLen, hc, h2]
        have hTr : tailLen nlv rest = rest.length := countNL_zero_tailLen nlv rest h2
        rw [if_pos (by omega : lc = lc + countNL nlv (c :: rest))]
        have e1 : cc + tailLen nlv (c :: rest) = (cc + 1) + tailLen nlv rest := by omega
        have e2 : lc + countNL nlv (c :: rest) = lc + countNL nlv rest := by omega
        rw [e1, e2]
        exact ih (idx + 1) (cc + 1) lc
      · have hT : tailLen nlv (c :: rest) = tailLen nlv rest := by
          simp [tailLen, h2]
        rw [if_neg (by omega : ¬lc = lc + countNL nlv (c :: rest))]
        have e1 : cc + tailLen nlv (c :: rest) = cc + tailLen nlv rest := by omega
        have e2 : lc + countNL nlv (c :: rest) = lc + countNL nlv rest := by omega
        rw [e1, e2]
        exact ih (idx + 1) cc lc

/-- C9: on a byte buffer, `line_column_to_idx` returns only indices
strictly below the element count of the traversal, and it panics (`none`)
on the (column, line) pair designating the position one past the last
element — the column is the length of the text after the last newline and
the line is the newline count. -/
theorem c9_line_column_to_idx_bound_and_end (b : PtBuffer Nat) (col line : Nat) :
    (∀ i, line_column_to_idx? 10 b col line = some i → i < (iterList b).length) ∧
    line_column_to_idx? 10 b (tailLen 10 (iterList b))
      (countNL 10 (iterList b)) = none := by
  constructor
  · intro i h
    have := lcCore_some_lt 10 col line (iterList b) 0 0 0 i h
    simpa using this
  · have := lcCore_end_none 10 (iterList b) 0 0 0
    simpa [line_column_to_idx?] using this

/-- C9 witness: on the one-byte document `[65]`, looking up `(0, 0)`
returns index `0 < 1`, and looking up the end position `(1, 0)` panics. -/
theorem c9_line_column_to_idx_bound_and_end_witness :
    (0 < (iterList (PtBuffer.new ([65] : List Nat))).length) ∧
    line_column_to_idx? 10 (PtBuffer.new ([65] : List Nat))
      (tailLen 10 (iterList (PtBuffer.new ([65] : List Nat))))
      (countNL 10 (iterList (PtBuffer.new ([65] : List Nat)))) = none :=
  ⟨(c9_line_column_to_idx_bound_and_end (PtBuffer.new [65]) 0 0).1 0 (by decide),
   (c9_line_column_to_idx_bound_and_end (PtBuffer.new [65]) 0 0).2⟩

/-- C10: `rev_iter()` on a buffer whose stored length is 0 (for instance
one built over an empty slice) hits the underflowing `0..length - 1`
subtraction — modelled as `none` — instead of yielding an empty
sequence. -/
theorem c10_rev_iter_on_empty_underflows (T : Type) (b : PtBuffer T)
    (h : b.length = 0) : rev_iter? b = none := by
  simp [rev_iter?, sub?, h]

/-- C10 witness: the buffer over the empty slice. -/
theorem c10_rev_iter_on_empty_underflows_witness :
    rev_iter? (PtBuffer.new ([] : List Nat)) = none :=
  c10_rev_iter_on_empty_underflows Nat (PtBuffer.new []) rfl

end Pita
